import Mathlib

/-!
Shallow embedding of the rust-todo habit tracker (src/main.rs, src/db.rs,
src/auth.rs, src/models.rs).

Timestamps are modelled as Unix epoch seconds (Nat); the UTC calendar date of
a timestamp is its day number.  The Postgres database is modelled as an
explicit record of tables; each sqlx query becomes a pure function on that
state.  Queries run directly on the connection pool (no transaction in the
source), so a mutating function returns the database state reached even when
it reports an error; which individual query fails is modelled by an explicit
fault valuation, `noFaults` being the normal, fault-free run.
-/

namespace RustTodo

/-- UTC calendar date of a Unix timestamp, as a day number (DATE(t) in the SQL). -/
def dateOf (t : Nat) : Nat := t / 86400

/-- Row of the users table (models.rs User). -/
structure User where
  id : Nat
  username : String
  password_hash : String
  create_time : Nat
deriving DecidableEq

/-- Row of the practice_action table (models.rs PracticeAction). -/
structure PracticeAction where
  id : Nat
  user_id : Nat
  name : String
  create_time : Nat
  last_finish_time : Option Nat
deriving DecidableEq

/-- Row of the practice_record table (models.rs PracticeRecord). -/
structure PracticeRecord where
  id : Nat
  action_id : Nat
  finish_time : Nat
  note : Option String
deriving DecidableEq

/-- Projection returned by list_actions_with_stats (models.rs ActionWithStats). -/
structure ActionWithStats where
  id : Nat
  user_id : Nat
  name : String
  create_time : Nat
  last_finish_time : Option Nat
  total_finished : Nat
  finished_today : Bool
deriving DecidableEq

/-- The database state: the three tables plus the BIGSERIAL counters. -/
structure Db where
  users : List User
  practice_action : List PracticeAction
  practice_record : List PracticeRecord
  next_user_id : Nat
  next_action_id : Nat
  next_record_id : Nat
deriving DecidableEq

/-- The empty database produced by init_db. -/
def emptyDb : Db :=
  { users := [], practice_action := [], practice_record := [],
    next_user_id := 1, next_action_id := 1, next_record_id := 1 }

/-- sqlx error values relevant to the handlers (sqlx::Error as matched in main.rs). -/
inductive SqlxError where
  | rowNotFound
  | database (uniqueViolation : Bool)
  | other
deriving DecidableEq

/-- The structured error returned to HTTP callers: status code and message
(main.rs AppError). -/
structure AppError where
  status : Nat
  message : String
deriving DecidableEq

/-- From sqlx::Error for AppError (main.rs impl From): RowNotFound becomes 404,
a unique violation becomes 409, everything else 500. -/
def appErrorFrom : SqlxError → AppError
  | .rowNotFound => ⟨404, "Not found"⟩
  | .database true => ⟨409, "Resource already exists"⟩
  | .database false => ⟨500, "Internal server error"⟩
  | .other => ⟨500, "Internal server error"⟩

/-- Which of the three queries issued by create_practice_record fails; each
sqlx call on the pool can independently return Err.  noFaults is the normal
run where the database backend serves every query. -/
structure DbFaults where
  failOwnershipCheck : Bool
  failUpdate : Bool
  failInsert : Bool
deriving DecidableEq

/-- The fault-free run: every query succeeds. -/
def noFaults : DbFaults := ⟨false, false, false⟩

instance {ε α : Type} [DecidableEq ε] [DecidableEq α] : DecidableEq (Except ε α) :=
  fun x y =>
  match x, y with
  | .ok a, .ok b =>
    match decEq a b with
    | isTrue h => isTrue (h ▸ rfl)
    | isFalse h => isFalse (fun hc => h (Except.ok.inj hc))
  | .error a, .error b =>
    match decEq a b with
    | isTrue h => isTrue (h ▸ rfl)
    | isFalse h => isFalse (fun hc => h (Except.error.inj hc))
  | .ok _, .error _ => isFalse (fun hc => Except.noConfusion hc)
  | .error _, .ok _ => isFalse (fun hc => Except.noConfusion hc)

/-- db.rs get_practice_action: SELECT ... FROM practice_action WHERE id = $1
AND user_id = $2, fetch_optional. -/
def get_practice_action (db : Db) (user_id id : Nat) : Option PracticeAction :=
  db.practice_action.find? (fun a => a.id == id && a.user_id == user_id)

/-- db.rs can_finish_today: COUNT of practice_record rows joined with
practice_action on ownership whose finish_time falls on the calendar date of
now; returns true iff that count is zero.  (In the source, now is
OffsetDateTime::now_utc(), passed here explicitly.) -/
def can_finish_today (db : Db) (user_id action_id now : Nat) : Bool :=
  (db.practice_record.filter (fun r =>
      r.action_id == action_id
      && db.practice_action.any (fun a => a.id == r.action_id && a.user_id == user_id)
      && dateOf r.finish_time == dateOf now)).length == 0

/-- Insertion of one element into a list sorted by the boolean relation le;
used to model the SQL ORDER BY clauses. -/
def insertSorted (le : α → α → Bool) (x : α) : List α → List α
  | [] => [x]
  | y :: ys => if le x y then x :: y :: ys else y :: insertSorted le x ys

/-- Sorting by a boolean relation; models an SQL ORDER BY. -/
def orderBy (le : α → α → Bool) : List α → List α
  | [] => []
  | x :: xs => insertSorted le x (orderBy le xs)

/-- ORDER BY r.finish_time DESC of get_practice_records. -/
def recDescLe (x y : PracticeRecord) : Bool :=
  decide (y.finish_time ≤ x.finish_time)

/-- db.rs get_practice_records: records of the action joined with
practice_action on ownership, ordered by finish_time descending. -/
def get_practice_records (db : Db) (user_id action_id : Nat) : List PracticeRecord :=
  orderBy recDescLe
    (db.practice_record.filter (fun r =>
      r.action_id == action_id
      && db.practice_action.any (fun a => a.id == r.action_id && a.user_id == user_id)))

/-- ORDER BY finished_today ASC, last_finish_time DESC NULLS LAST,
create_time DESC of list_actions_with_stats. -/
def statsLe (x y : ActionWithStats) : Bool :=
  if x.finished_today != y.finished_today then !x.finished_today
  else
    match x.last_finish_time, y.last_finish_time with
    | some a, some b =>
        if a != b then decide (b < a) else decide (y.create_time ≤ x.create_time)
    | some _, none => true
    | none, some _ => false
    | none, none => decide (y.create_time ≤ x.create_time)

/-- The rows of the list_actions_with_stats query before ORDER BY: each action
of the user, LEFT JOINed with the grouped completion_counts CTE (COALESCE 0)
and with the ungrouped today_completions CTE; an action with k > 0 records on
the current date yields k identical joined rows, an action with none yields
one row with finished_today = false. -/
def statsRows (db : Db) (user_id now : Nat) : List ActionWithStats :=
  (db.practice_action.filter (fun a => a.user_id == user_id)).flatMap (fun a =>
    let total := (db.practice_record.filter (fun r => r.action_id == a.id)).length
    let todays := db.practice_record.filter (fun r =>
      r.action_id == a.id && dateOf r.finish_time == dateOf now)
    match todays with
    | [] => [⟨a.id, a.user_id, a.name, a.create_time, a.last_finish_time, total, false⟩]
    | ts => ts.map (fun _ =>
        ⟨a.id, a.user_id, a.name, a.create_time, a.last_finish_time, total, true⟩))

/-- db.rs list_actions_with_stats: the joined rows sorted by the ORDER BY key.
(CURRENT_DATE is passed here explicitly as the date of now.) -/
def list_actions_with_stats (db : Db) (user_id now : Nat) : List ActionWithStats :=
  orderBy statsLe (statsRows db user_id now)

/-- db.rs create_user: INSERT INTO users with now = now_utc(); the UNIQUE
constraint on username makes a duplicate fail with a unique-violation
database error, leaving the table unchanged. -/
def create_user (db : Db) (username password_hash : String) (now : Nat) :
    Except SqlxError User × Db :=
  if db.users.any (fun u => u.username == username) then
    (.error (.database true), db)
  else
    let u : User := ⟨db.next_user_id, username, password_hash, now⟩
    (.ok u, { db with users := db.users ++ [u], next_user_id := db.next_user_id + 1 })

/-- db.rs create_practice_action: INSERT INTO practice_action with
last_finish_time NULL; the foreign key on user_id makes an insert for a
missing user fail with a (non-unique-violation) database error. -/
def create_practice_action (db : Db) (user_id : Nat) (name : String) (now : Nat) :
    Except SqlxError PracticeAction × Db :=
  if db.users.any (fun u => u.id == user_id) then
    let a : PracticeAction := ⟨db.next_action_id, user_id, name, now, none⟩
    (.ok a,
     { db with practice_action := db.practice_action ++ [a],
               next_action_id := db.next_action_id + 1 })
  else
    (.error (.database false), db)

/-- db.rs create_practice_record: three separate queries on the pool, not a
transaction.  1) ownership check (EXISTS); on failure of the check the whole
call fails RowNotFound with nothing written.  2) UPDATE practice_action SET
last_finish_time = now WHERE id = action_id AND user_id = user_id.  3) INSERT
INTO practice_record (action_id, finish_time, note).  Each query can fail at
the backend (the fault valuation); a failure aborts the function but keeps
the writes already executed, since no transaction encloses them. -/
def create_practice_record (f : DbFaults) (db : Db) (user_id action_id : Nat)
    (note : Option String) (now : Nat) : Except SqlxError PracticeRecord × Db :=
  if f.failOwnershipCheck then (.error .other, db)
  else if !(db.practice_action.any (fun a => a.id == action_id && a.user_id == user_id)) then
    (.error .rowNotFound, db)
  else if f.failUpdate then (.error .other, db)
  else
    let db1 : Db :=
      { db with practice_action := db.practice_action.map (fun a =>
          if a.id == action_id && a.user_id == user_id then
            { a with last_finish_time := some now }
          else a) }
    if f.failInsert then (.error .other, db1)
    else
      let r : PracticeRecord := ⟨db1.next_record_id, action_id, now, note⟩
      (.ok r,
       { db1 with practice_record := db1.practice_record ++ [r],
                  next_record_id := db1.next_record_id + 1 })

/-- main.rs finish_action: look up the action scoped to the caller (404
"Action not found" when absent), check can_finish_today (409 "Already
completed today" when false), then create_practice_record with a hardcoded
empty note, mapping any sqlx error through From. -/
def finish_action (f : DbFaults) (db : Db) (user_id id now : Nat) :
    Except AppError PracticeRecord × Db :=
  match get_practice_action db user_id id with
  | none => (.error ⟨404, "Action not found"⟩, db)
  | some action =>
    if !(can_finish_today db user_id action.id now) then
      (.error ⟨409, "Already completed today"⟩, db)
    else
      let note : Option String := some ""
      match create_practice_record f db user_id action.id note now with
      | (.error e, db1) => (.error (appErrorFrom e), db1)
      | (.ok r, db1) => (.ok r, db1)

/-! Token service (auth.rs).  The JWT payload is the Claims struct serialized
to JSON; a token on the wire may additionally carry registered claims such as
exp, so the payload is modelled with an optional exp field, which create_token
never sets (the Rust Claims struct has only sub).  The HMAC-SHA256 signature
is modelled symbolically as the (secret, payload) pair: a signature verifies
iff it was produced over the same payload with the same secret. -/

/-- The signed JWT payload: the sub claim (user id) plus an optional exp
claim that a foreign token could carry. -/
structure TokenPayload where
  sub : Nat
  exp : Option Nat
deriving DecidableEq

/-- Symbolic MAC: the signature of a payload under a secret. -/
def macSign (secret : String) (p : TokenPayload) : String × TokenPayload :=
  (secret, p)

/-- A serialized JWT: payload plus signature. -/
structure Token where
  payload : TokenPayload
  sig : String × TokenPayload
deriving DecidableEq

/-- auth.rs create_token: encode Claims { sub: user_id } signed with the
process-wide secret; no exp claim is set. -/
def create_token (secret : String) (user_id : Nat) : Token :=
  { payload := { sub := user_id, exp := none },
    sig := macSign secret { sub := user_id, exp := none } }

/-- The jsonwebtoken Validation settings as configured in
AuthUser::from_request_parts: required_spec_claims cleared, expiry and
audience validation disabled. -/
structure TokenValidation where
  validateExp : Bool
  validateAud : Bool
  requiredSpecClaims : List String
deriving DecidableEq

/-- auth.rs lines 60-63: Validation::new(HS256) with required_spec_claims
emptied, validate_exp = false, validate_aud = false. -/
def authValidation : TokenValidation :=
  { validateExp := false, validateAud := false, requiredSpecClaims := [] }

/-- jsonwebtoken decode, restricted to the checks the configured validation
performs: signature verification always; the exp claim is compared with the
clock only when validateExp is set, and its absence is an error only when
exp is among the required claims. -/
def decodeToken (secret : String) (v : TokenValidation) (t : Token) (now : Nat) :
    Except Unit TokenPayload :=
  if t.sig ≠ macSign secret t.payload then .error ()
  else if v.validateExp then
    match t.payload.exp with
    | some e => if e < now then .error () else .ok t.payload
    | none =>
      if v.requiredSpecClaims.contains "exp" then .error () else .ok t.payload
  else .ok t.payload

/-- The authenticated identity extracted from a request (auth.rs AuthUser). -/
structure AuthUser where
  user_id : Nat
deriving DecidableEq

/-- The Authorization header of a request: absent, a Bearer token, or a value
from which strip of the Bearer marker fails. -/
inductive AuthHeader where
  | missing
  | bearer (t : Token)
  | malformed (s : String)
deriving DecidableEq

/-- auth.rs AuthUser::from_request_parts: take the Authorization header,
strip the Bearer marker (its absence is the 401 "Missing authorization
header" error), then decode the token with authValidation (a decode failure
is the 401 "Invalid token" error). -/
def from_request_parts (secret : String) (h : AuthHeader) (now : Nat) :
    Except AppError AuthUser :=
  match h with
  | .missing => .error ⟨401, "Missing authorization header"⟩
  | .malformed _ => .error ⟨401, "Missing authorization header"⟩
  | .bearer t =>
    match decodeToken secret authValidation t now with
    | .error _ => .error ⟨401, "Invalid token"⟩
    | .ok p => .ok ⟨p.sub⟩

/-! The public mutating operations as a step relation.  Reads
(list_actions_with_stats, get_practice_records, get_practice_action,
can_finish_today, login) do not change the database.  The clock constraint on
a finish step records that OffsetDateTime::now_utc() is monotone: the time of
a new call is at least every finish_time already stored. -/

/-- One public mutating operation applied to the database, under the
fault-free backend. -/
inductive Step : Db → Db → Prop where
  | register (db : Db) (username password_hash : String) (now : Nat) :
      Step db (create_user db username password_hash now).2
  | createAction (db : Db) (user_id : Nat) (name : String) (now : Nat) :
      Step db (create_practice_action db user_id name now).2
  | finish (db : Db) (user_id id now : Nat)
      (hclock : ∀ r ∈ db.practice_record, r.finish_time ≤ now) :
      Step db (finish_action noFaults db user_id id now).2

/-- Database states reachable from the empty database through the public
operations. -/
inductive Reachable : Db → Prop where
  | init : Reachable emptyDb
  | step (db db' : Db) (h : Reachable db) (hs : Step db db') : Reachable db'

/-- The denormalization invariant: whenever an action row carries a
last_finish_time, that value is the finish_time of a most recent
PracticeRecord of the action — some record of the action attains it and no
record of the action exceeds it. -/
def lftInv (db : Db) : Prop :=
  ∀ a ∈ db.practice_action, ∀ t, a.last_finish_time = some t →
    (∃ r ∈ db.practice_record, r.action_id = a.id ∧ r.finish_time = t) ∧
    (∀ r ∈ db.practice_record, r.action_id = a.id → r.finish_time ≤ t)

/-- Well-formedness maintained by the BIGSERIAL id columns: every action id is
below the sequence counter, hence ids are pairwise distinct. -/
def actionIdsOk (db : Db) : Prop :=
  (∀ a ∈ db.practice_action, a.id < db.next_action_id) ∧
  db.practice_action.Pairwise (fun a b => a.id ≠ b.id)

end RustTodo

namespace RustTodo

theorem insertSorted_perm (le : α → α → Bool) (x : α) :
    ∀ l : List α, (insertSorted le x l).Perm (x :: l) := by
  intro l
  induction l with
  | nil => simp [insertSorted]
  | cons y ys ih =>
    rw [insertSorted]
    split
    · exact List.Perm.refl _
    · exact (ih.cons y).trans (List.Perm.swap x y ys)

theorem orderBy_perm (le : α → α → Bool) :
    ∀ l : List α, (orderBy le l).Perm l := by
  intro l
  induction l with
  | nil => simp [orderBy]
  | cons x xs ih =>
    rw [orderBy]
    exact (insertSorted_perm le x (orderBy le xs)).trans (ih.cons x)

theorem pairwise_insertSorted (le : α → α → Bool)
    (htrans : ∀ a b c, le a b = true → le b c = true → le a c = true)
    (htotal : ∀ a b, le a b = true ∨ le b a = true) (x : α) :
    ∀ l : List α, l.Pairwise (fun a b => le a b = true) →
      (insertSorted le x l).Pairwise (fun a b => le a b = true) := by
  intro l
  induction l with
  | nil => intro _; simp [insertSorted]
  | cons y ys ih =>
    intro h
    rw [List.pairwise_cons] at h
    obtain ⟨hy, hys⟩ := h
    rw [insertSorted]
    split
    case isTrue hxy =>
      refine List.Pairwise.cons ?_ (List.Pairwise.cons hy hys)
      intro z hz
      rcases List.mem_cons.mp hz with rfl | hz
      · exact hxy
      · exact htrans x y z hxy (hy z hz)
    case isFalse hxy =>
      refine List.Pairwise.cons ?_ (ih hys)
      intro z hz
      have hz' := (insertSorted_perm le x ys).mem_iff.mp hz
      rcases List.mem_cons.mp hz' with hzx | hz'
      · rw [hzx]
        rcases htotal x y with hc | hc
        · exact absurd hc hxy
        · exact hc
      · exact hy z hz'

theorem pairwise_orderBy (le : α → α → Bool)
    (htrans : ∀ a b c, le a b = true → le b c = true → le a c = true)
    (htotal : ∀ a b, le a b = true ∨ le b a = true) :
    ∀ l : List α, (orderBy le l).Pairwise (fun a b => le a b = true) := by
  intro l
  induction l with
  | nil => simp [orderBy]
  | cons x xs ih =>
    rw [orderBy]
    exact pairwise_insertSorted le htrans htotal x (orderBy le xs) ih

theorem recDescLe_trans (a b c : PracticeRecord)
    (h1 : recDescLe a b = true) (h2 : recDescLe b c = true) : recDescLe a c = true := by
  simp only [recDescLe, decide_eq_true_eq] at *
  omega

theorem recDescLe_total (a b : PracticeRecord) :
    recDescLe a b = true ∨ recDescLe b a = true := by
  simp only [recDescLe, decide_eq_true_eq]
  omega

theorem statsLe_trans (x y z : ActionWithStats)
    (hxy : statsLe x y = true) (hyz : statsLe y z = true) : statsLe x z = true := by
  obtain ⟨_, _, _, xc, xl, _, xf⟩ := x
  obtain ⟨_, _, _, yc, yl, _, yf⟩ := y
  obtain ⟨_, _, _, zc, zl, _, zf⟩ := z
  simp only [statsLe] at *
  cases xf <;> cases yf <;> cases zf <;>
    rcases xl with _ | a <;> rcases yl with _ | b <;> rcases zl with _ | c <;>
    simp_all <;> (try split_ifs at *) <;> (try simp_all) <;> omega

theorem statsLe_total (x y : ActionWithStats) :
    statsLe x y = true ∨ statsLe y x = true := by
  obtain ⟨_, _, _, xc, xl, _, xf⟩ := x
  obtain ⟨_, _, _, yc, yl, _, yf⟩ := y
  simp only [statsLe]
  cases xf <;> cases yf <;>
    rcases xl with _ | a <;> rcases yl with _ | b <;>
    simp_all <;> (try split_ifs at *) <;> (try simp_all) <;> omega

end RustTodo

namespace RustTodo

/-- Successful fault-free create_practice_record: the returned record carries
the given note, action id and timestamp, and the resulting state appends that
record and stamps last_finish_time on the owned action row. -/
theorem create_record_ok_fields (db : Db) (u aid : Nat) (note : Option String)
    (now : Nat) (r : PracticeRecord) (db' : Db)
    (h : create_practice_record noFaults db u aid note now = (.ok r, db')) :
    r = ⟨db.next_record_id, aid, now, note⟩ ∧
    db' = { db with
      practice_action := db.practice_action.map (fun a =>
        if a.id == aid && a.user_id == u then { a with last_finish_time := some now }
        else a),
      practice_record := db.practice_record ++ [⟨db.next_record_id, aid, now, note⟩],
      next_record_id := db.next_record_id + 1 } := by
  rw [create_practice_record] at h
  simp only [noFaults, Bool.false_eq_true, if_false] at h
  split at h
  · simp at h
  · simp only [Prod.mk.injEq, Except.ok.injEq] at h
    obtain ⟨h1, h2⟩ := h
    subst h1
    constructor
    · rfl
    · rw [← h2]

/-- Fault-free create_practice_record fails only on the ownership check, in
which case it is RowNotFound and the database is untouched. -/
theorem create_record_error (db : Db) (u aid : Nat) (note : Option String)
    (now : Nat) (e : SqlxError) (db' : Db)
    (h : create_practice_record noFaults db u aid note now = (.error e, db')) :
    e = .rowNotFound ∧ db' = db ∧
    ¬ ∃ a ∈ db.practice_action, a.id = aid ∧ a.user_id = u := by
  rw [create_practice_record] at h
  simp only [noFaults, Bool.false_eq_true, if_false] at h
  split at h
  case isTrue hcond =>
    simp only [Prod.mk.injEq, Except.error.injEq] at h
    obtain ⟨h1, h2⟩ := h
    refine ⟨h1.symm, h2.symm, ?_⟩
    rw [Bool.not_eq_true', List.any_eq_false] at hcond
    rintro ⟨a, ha, h3, h4⟩
    have hc := hcond a ha
    simp [h3, h4] at hc
  case isFalse => simp at h

/-- Successful finish_action decomposes into the lookup, the eligibility
check and the record creation with the hardcoded empty note. -/
theorem finish_action_ok (db : Db) (u aid now : Nat) (r : PracticeRecord) (db' : Db)
    (h : finish_action noFaults db u aid now = (.ok r, db')) :
    ∃ action, get_practice_action db u aid = some action ∧
      action.id = aid ∧ action.user_id = u ∧
      can_finish_today db u action.id now = true ∧
      create_practice_record noFaults db u action.id (some "") now = (.ok r, db') := by
  rw [finish_action] at h
  cases hga : get_practice_action db u aid with
  | none => rw [hga] at h; simp at h
  | some action =>
    rw [hga] at h
    dsimp only at h
    have hpa := List.find?_some hga
    simp only [Bool.and_eq_true, beq_iff_eq] at hpa
    cases hcan : can_finish_today db u action.id now with
    | false => rw [hcan] at h; simp at h
    | true =>
      rw [hcan] at h
      simp only [Bool.not_true, Bool.false_eq_true, if_false] at h
      refine ⟨action, rfl, hpa.1, hpa.2, hcan, ?_⟩
      cases hcr : create_practice_record noFaults db u action.id (some "") now with
      | mk res db1 =>
        rw [hcr] at h
        cases res with
        | error e => simp at h
        | ok r0 =>
          simp only [Prod.mk.injEq, Except.ok.injEq] at h
          rw [h.1, h.2]

/-- Claim C8: validating (through the bearer-token extraction configured in
AuthUser::from_request_parts) a token issued by create_token for user U
yields U, at every validation time: the configured validation checks only
the signature, never expiry. -/
theorem C8_token_roundtrip (secret : String) (U now : Nat) :
    from_request_parts secret (.bearer (create_token secret U)) now =
      .ok ⟨U⟩ := by
  simp [from_request_parts, decodeToken, create_token, authValidation, macSign]

/-- Claim C9: when no action row with the requested id is owned by the
caller — whether the action belongs to someone else or does not exist —
finish_action fails with the one 404 "Action not found" error and leaves the
database unchanged, revealing nothing about existence. -/
theorem C9_not_owned_notfound (f : DbFaults) (db : Db) (u aid now : Nat)
    (h : ∀ a ∈ db.practice_action, a.id = aid → a.user_id ≠ u) :
    finish_action f db u aid now = (.error ⟨404, "Action not found"⟩, db) := by
  have hnone : get_practice_action db u aid = none := by
    rw [get_practice_action, List.find?_eq_none]
    intro a ha
    simp only [Bool.and_eq_true, beq_iff_eq, not_and]
    exact h a ha
  rw [finish_action, hnone]

/-- A database holding an action owned by user 2, used to exercise
finish_action by the non-owner user 1. -/
def dbOwned2 : Db :=
  { emptyDb with
    users := [⟨2, "owner", "h", 0⟩],
    practice_action := [⟨1, 2, "sit", 0, none⟩],
    next_user_id := 3,
    next_action_id := 2 }

theorem C9_not_owned_notfound_witness :
    (∀ a ∈ dbOwned2.practice_action, a.id = 1 → a.user_id ≠ 1) ∧
    finish_action noFaults dbOwned2 1 1 5 = (.error ⟨404, "Action not found"⟩, dbOwned2) :=
  ⟨by decide, C9_not_owned_notfound noFaults dbOwned2 1 1 5 (by decide)⟩

end RustTodo

namespace RustTodo

/-- Database with user 1 owning action 1 ("sit", created at 0, never
finished) and no records. -/
def dbOneAction : Db :=
  { emptyDb with
    users := [⟨1, "alice", "h", 0⟩],
    practice_action := [⟨1, 1, "sit", 0, none⟩],
    next_user_id := 2,
    next_action_id := 2 }

/-- The backend fault in which the INSERT of the new practice_record fails
after the UPDATE of the action row already succeeded; without a transaction
the update stays. -/
def insertFault : DbFaults := ⟨false, false, true⟩

/-- Claim C1, evaluated at the failing input: when the INSERT fails after
the UPDATE (no transaction encloses the two writes), create_practice_record
returns an error, yet the last_finish_time of the action row has changed
from none to some 500 while no record was added — the two writes are not
atomic, contradicting the guarantee. -/
theorem C1_nonatomic_eval :
    (create_practice_record insertFault dbOneAction 1 1 (some "") 500).1
      = .error .other ∧
    (create_practice_record insertFault dbOneAction 1 1 (some "") 500).2.practice_action
      = [⟨1, 1, "sit", 0, some 500⟩] ∧
    dbOneAction.practice_action = [⟨1, 1, "sit", 0, none⟩] ∧
    (create_practice_record insertFault dbOneAction 1 1 (some "") 500).2.practice_record
      = dbOneAction.practice_record := by decide

/-- User 1 with actions A (id 1, created first, never finished), B (id 2,
last finished on day 8), C (id 3, finished on day 10); now is on day 10. -/
def dbThreeActions : Db :=
  { emptyDb with
    users := [⟨1, "u", "h", 0⟩],
    practice_action :=
      [⟨1, 1, "A", 1, none⟩, ⟨2, 1, "B", 2, some 691200⟩, ⟨3, 1, "C", 3, some 864005⟩],
    practice_record := [⟨1, 2, 691200, none⟩, ⟨2, 3, 864005, none⟩],
    next_user_id := 2,
    next_action_id := 4,
    next_record_id := 3 }

/-- Claim C3, refuted: with A never finished, B finished two days ago and C
finished today, the query does not return [A, B, C]. -/
theorem C3_counterexample :
    (list_actions_with_stats dbThreeActions 1 864000).map (fun x => x.id)
      ≠ [1, 2, 3] := by decide

/-- Claim C3 as the code orders it: [B, A, C] — A and B are both not
finished today, but DESC NULLS LAST puts the null last_finish_time of A
after the value of B; C is last as the only action finished today. -/
theorem C3_amended_order :
    (list_actions_with_stats dbThreeActions 1 864000).map (fun x => x.id) = [2, 1, 3] ∧
    (list_actions_with_stats dbThreeActions 1 864000).map (fun x => x.finished_today)
      = [false, false, true] := by decide

/-- Action 1 is owned by user 1 and has a record on day 0; user 2 does not
own it. -/
def dbForeignRecord : Db :=
  { emptyDb with
    users := [⟨1, "a", "h", 0⟩, ⟨2, "b", "h", 0⟩],
    practice_action := [⟨1, 1, "A", 0, some 100⟩],
    practice_record := [⟨1, 1, 100, none⟩],
    next_user_id := 3,
    next_action_id := 2,
    next_record_id := 2 }

/-- Claim C5, refuted: for user 2, who does not own action 1,
can_finish_today returns true although action 1 does have a record on the
calendar date of now — the ownership join empties the count. -/
theorem C5_counterexample :
    can_finish_today dbForeignRecord 2 1 50 = true ∧
    ∃ r ∈ dbForeignRecord.practice_record,
      r.action_id = 1 ∧ dateOf r.finish_time = dateOf 50 := by decide

/-- Claim C5 as the code behaves: can_finish_today is true iff no record of
the action falls on the calendar date of now among records whose action is
owned by the querying user; records of a non-owned action never count. -/
theorem C5_amended_iff (db : Db) (u aid now : Nat) :
    can_finish_today db u aid now = true ↔
      ¬ ∃ r ∈ db.practice_record, r.action_id = aid ∧
          (∃ a ∈ db.practice_action, a.id = aid ∧ a.user_id = u) ∧
          dateOf r.finish_time = dateOf now := by
  rw [can_finish_today, beq_iff_eq, List.length_eq_zero, List.filter_eq_nil_iff]
  constructor
  · intro h
    rintro ⟨r, hr, h1, ⟨a, ha, ha1, ha2⟩, h3⟩
    apply h r hr
    simp only [Bool.and_eq_true, beq_iff_eq, List.any_eq_true]
    exact ⟨⟨h1, a, ha, ha1.trans h1.symm, ha2⟩, h3⟩
  · intro h r hr hp
    simp only [Bool.and_eq_true, beq_iff_eq, List.any_eq_true] at hp
    obtain ⟨⟨h1, a, ha, ha1, ha2⟩, h3⟩ := hp
    exact h ⟨r, hr, h1, ⟨a, ha, ha1.trans h1, ha2⟩, h3⟩

/-- Claim C7, refuted: the finish endpoint accepts no note from the caller;
the record of a successful finish always stores the hardcoded empty note
some "", which differs from any nonempty note a caller could intend. -/
theorem C7_counterexample :
    (finish_action noFaults dbOneAction 1 1 500).1 = .ok ⟨1, 1, 500, some ""⟩ ∧
    (some "" : Option String) ≠ some "a note from the caller" := by decide

/-- Claim C7 as the code behaves: a successful finish stores finish_time =
now and the hardcoded note some "", while the underlying
create_practice_record does store its note argument verbatim. -/
theorem C7_amended_note (db : Db) (u aid now : Nat) (r : PracticeRecord) (db' : Db)
    (h : finish_action noFaults db u aid now = (.ok r, db')) :
    r.note = some "" ∧ r.finish_time = now ∧
    ∀ (note : Option String) (r2 : PracticeRecord) (db2 : Db),
      create_practice_record noFaults db u aid note now = (.ok r2, db2) →
      r2.note = note ∧ r2.finish_time = now := by
  obtain ⟨action, hga, hid, huid, hcan, hcr⟩ := finish_action_ok db u aid now r db' h
  obtain ⟨hr, _⟩ := create_record_ok_fields db u action.id (some "") now r db' hcr
  refine ⟨by rw [hr], by rw [hr], ?_⟩
  intro note r2 db2 h2
  obtain ⟨hr2, _⟩ := create_record_ok_fields db u aid note now r2 db2 h2
  exact ⟨by rw [hr2], by rw [hr2]⟩

/-- The state after user 1 finishes action 1 at time 500 in dbOneAction. -/
def dbOneActionAfter : Db :=
  { emptyDb with
    users := [⟨1, "alice", "h", 0⟩],
    practice_action := [⟨1, 1, "sit", 0, some 500⟩],
    practice_record := [⟨1, 1, 500, some ""⟩],
    next_user_id := 2,
    next_action_id := 2,
    next_record_id := 2 }

theorem C7_amended_note_witness :
    (⟨1, 1, 500, some ""⟩ : PracticeRecord).note = some "" ∧
    (⟨1, 1, 500, some ""⟩ : PracticeRecord).finish_time = 500 :=
  ⟨(C7_amended_note dbOneAction 1 1 500 ⟨1, 1, 500, some ""⟩ dbOneActionAfter (by decide)).1,
   (C7_amended_note dbOneAction 1 1 500 ⟨1, 1, 500, some ""⟩ dbOneActionAfter (by decide)).2.1⟩

end RustTodo

namespace RustTodo

/-- The display ordering exactly as the spec words it, as a relation between
an earlier and a later output row: a row not finished today precedes any row
finished today; rows with equal finished_today are ordered by
last_finish_time descending with null (never finished) sorting last; ties
broken by create_time descending. -/
def claimOrder (x y : ActionWithStats) : Prop :=
  (x.finished_today = false ∧ y.finished_today = true) ∨
  (x.finished_today = y.finished_today ∧
    match x.last_finish_time, y.last_finish_time with
    | some a, some b => b < a ∨ (a = b ∧ y.create_time ≤ x.create_time)
    | some _, none => True
    | none, some _ => False
    | none, none => y.create_time ≤ x.create_time)

theorem statsLe_imp_claimOrder (x y : ActionWithStats)
    (h : statsLe x y = true) : claimOrder x y := by
  obtain ⟨_, _, _, xc, xl, _, xf⟩ := x
  obtain ⟨_, _, _, yc, yl, _, yf⟩ := y
  simp only [statsLe] at h
  simp only [claimOrder]
  cases xf <;> cases yf <;>
    rcases xl with _ | a <;> rcases yl with _ | b <;>
    simp_all <;> (try split_ifs at *) <;> (try simp_all)

theorem mem_statsRows (db : Db) (u now : Nat) (x : ActionWithStats)
    (hx : x ∈ statsRows db u now) :
    ∃ a ∈ db.practice_action, a.user_id = u ∧ x.id = a.id ∧ x.name = a.name ∧
      x.create_time = a.create_time ∧ x.last_finish_time = a.last_finish_time := by
  rw [statsRows, List.mem_flatMap] at hx
  obtain ⟨a, ha, hxa⟩ := hx
  have hau := List.mem_filter.mp ha
  refine ⟨a, hau.1, by simpa using hau.2, ?_⟩
  dsimp only at hxa
  cases htod : db.practice_record.filter (fun r =>
      r.action_id == a.id && dateOf r.finish_time == dateOf now) with
  | nil =>
    rw [htod] at hxa
    simp only [List.mem_singleton] at hxa
    rw [hxa]
    exact ⟨rfl, rfl, rfl, rfl⟩
  | cons t ts =>
    rw [htod] at hxa
    simp only [List.mem_map] at hxa
    obtain ⟨_, _, hrow⟩ := hxa
    rw [← hrow]
    exact ⟨rfl, rfl, rfl, rfl⟩

theorem statsRows_complete (db : Db) (u now : Nat) (a : PracticeAction)
    (ha : a ∈ db.practice_action) (hu : a.user_id = u) :
    ∃ x ∈ statsRows db u now, x.id = a.id := by
  rw [statsRows]
  have haf : a ∈ db.practice_action.filter (fun b => b.user_id == u) :=
    List.mem_filter.mpr ⟨ha, by simp [hu]⟩
  cases htod : db.practice_record.filter (fun r =>
      r.action_id == a.id && dateOf r.finish_time == dateOf now) with
  | nil =>
    refine ⟨⟨a.id, a.user_id, a.name, a.create_time, a.last_finish_time,
      (db.practice_record.filter (fun r => r.action_id == a.id)).length, false⟩,
      List.mem_flatMap.mpr ⟨a, haf, ?_⟩, rfl⟩
    dsimp only
    rw [htod]
    simp
  | cons t ts =>
    refine ⟨⟨a.id, a.user_id, a.name, a.create_time, a.last_finish_time,
      (db.practice_record.filter (fun r => r.action_id == a.id)).length, true⟩,
      List.mem_flatMap.mpr ⟨a, haf, ?_⟩, rfl⟩
    dsimp only
    rw [htod]
    exact List.mem_map.mpr ⟨t, List.mem_cons_self t ts, rfl⟩

/-- Claim C2: the rows returned by list_actions_with_stats are exactly rows
for the actions of the querying user, and every earlier row relates to every
later row by the spec ordering: not-finished-today before finished-today,
then last_finish_time descending with nulls last, then create_time
descending. -/
theorem C2_list_with_stats_order (db : Db) (u now : Nat) :
    (list_actions_with_stats db u now).Pairwise claimOrder ∧
    (∀ x ∈ list_actions_with_stats db u now,
      ∃ a ∈ db.practice_action, a.user_id = u ∧ x.id = a.id ∧ x.name = a.name ∧
        x.create_time = a.create_time ∧ x.last_finish_time = a.last_finish_time) ∧
    (∀ a ∈ db.practice_action, a.user_id = u →
      ∃ x ∈ list_actions_with_stats db u now, x.id = a.id) := by
  refine ⟨?_, ?_, ?_⟩
  · exact ((pairwise_orderBy statsLe statsLe_trans statsLe_total
      (statsRows db u now)).imp (fun h => statsLe_imp_claimOrder _ _ h))
  · intro x hx
    exact mem_statsRows db u now x
      ((orderBy_perm statsLe (statsRows db u now)).mem_iff.mp hx)
  · intro a ha hu
    obtain ⟨x, hx, hxa⟩ := statsRows_complete db u now a ha hu
    exact ⟨x, (orderBy_perm statsLe (statsRows db u now)).mem_iff.mpr hx, hxa⟩

/-- Claim C10: requesting the records of an action that is absent or not
owned returns the empty list (no NotFound error), and for an owned action
returns exactly the records of that action ordered by finish_time
descending. -/
theorem C10_records (db : Db) (u aid : Nat) :
    ((∀ a ∈ db.practice_action, ¬(a.id = aid ∧ a.user_id = u)) →
      get_practice_records db u aid = []) ∧
    ((∃ a ∈ db.practice_action, a.id = aid ∧ a.user_id = u) →
      (get_practice_records db u aid).Perm
        (db.practice_record.filter (fun r => r.action_id == aid)) ∧
      (get_practice_records db u aid).Pairwise
        (fun x y => y.finish_time ≤ x.finish_time)) := by
  constructor
  · intro h
    rw [get_practice_records]
    have hnil : db.practice_record.filter (fun r =>
        r.action_id == aid
        && db.practice_action.any (fun a => a.id == r.action_id && a.user_id == u)) = [] := by
      rw [List.filter_eq_nil_iff]
      intro r hr hp
      simp only [Bool.and_eq_true, beq_iff_eq, List.any_eq_true] at hp
      obtain ⟨h1, a, ha, ha1, ha2⟩ := hp
      exact h a ha ⟨ha1.trans h1, ha2⟩
    rw [hnil]
    rfl
  · rintro ⟨a, ha, ha1, ha2⟩
    have hfe : db.practice_record.filter (fun r =>
        r.action_id == aid
        && db.practice_action.any (fun b => b.id == r.action_id && b.user_id == u))
        = db.practice_record.filter (fun r => r.action_id == aid) := by
      apply List.filter_congr
      intro r hr
      cases hq : (r.action_id == aid) with
      | false => simp [hq]
      | true =>
        simp only [hq, Bool.true_and]
        have : db.practice_action.any (fun b => b.id == r.action_id && b.user_id == u)
            = true := by
          refine List.any_eq_true.mpr ⟨a, ha, ?_⟩
          simp only [Bool.and_eq_true, beq_iff_eq]
          exact ⟨ha1.trans (beq_iff_eq.mp hq).symm, ha2⟩
        rw [this]
    constructor
    · rw [get_practice_records, hfe]
      exact orderBy_perm recDescLe _
    · rw [get_practice_records]
      exact (pairwise_orderBy recDescLe recDescLe_trans recDescLe_total _).imp
        (fun h => by simpa [recDescLe] using h)

theorem C10_records_witness :
    get_practice_records dbForeignRecord 2 1 = [] ∧
    (get_practice_records dbForeignRecord 1 1).Perm
      (dbForeignRecord.practice_record.filter (fun r => r.action_id == 1)) :=
  ⟨(C10_records dbForeignRecord 2 1).1 (by decide),
   ((C10_records dbForeignRecord 1 1).2 (by decide)).1⟩

end RustTodo

namespace RustTodo

/-- The database state after the UPDATE of the action row and the INSERT of
the new record performed by a successful create_practice_record. -/
def recordInsert (db : Db) (u aid : Nat) (note : Option String) (now : Nat) : Db :=
  { db with
    practice_action := db.practice_action.map (fun a =>
      if a.id == aid && a.user_id == u then { a with last_finish_time := some now }
      else a),
    practice_record := db.practice_record ++ [⟨db.next_record_id, aid, now, note⟩],
    next_record_id := db.next_record_id + 1 }

theorem create_record_ok_of_owned (db : Db) (u aid : Nat) (note : Option String)
    (now : Nat) (h : ∃ a ∈ db.practice_action, a.id = aid ∧ a.user_id = u) :
    create_practice_record noFaults db u aid note now =
      (.ok ⟨db.next_record_id, aid, now, note⟩, recordInsert db u aid note now) := by
  obtain ⟨a, ha, ha1, ha2⟩ := h
  have hany : db.practice_action.any (fun b => b.id == aid && b.user_id == u) = true :=
    List.any_eq_true.mpr ⟨a, ha, by simp [ha1, ha2]⟩
  rw [create_practice_record]
  simp only [noFaults, Bool.false_eq_true, if_false, hany, Bool.not_true]
  rfl

theorem C4_double_finish (db : Db) (u aid now1 now2 : Nat)
    (hown : (get_practice_action db u aid).isSome = true)
    (hclean : ∀ r ∈ db.practice_record, r.action_id = aid →
      dateOf r.finish_time ≠ dateOf now1)
    (hday : dateOf now1 = dateOf now2) :
    (finish_action noFaults db u aid now1).1
      = .ok ⟨db.next_record_id, aid, now1, some ""⟩ ∧
    (finish_action noFaults (finish_action noFaults db u aid now1).2 u aid now2).1
      = .error ⟨409, "Already completed today"⟩ ∧
    (finish_action noFaults (finish_action noFaults db u aid now1).2 u aid now2).2
      = (finish_action noFaults db u aid now1).2 ∧
    ((finish_action noFaults db u aid now1).2.practice_record.filter (fun r =>
      r.action_id == aid && dateOf r.finish_time == dateOf now2)).length = 1 := by
  obtain ⟨action, hga1⟩ := Option.isSome_iff_exists.mp hown
  have hpa := List.find?_some hga1
  simp only [Bool.and_eq_true, beq_iff_eq] at hpa
  obtain ⟨haid, huser⟩ := hpa
  have hmem := List.mem_of_find?_eq_some hga1
  have hcan1 : can_finish_today db u aid now1 = true := by
    rw [can_finish_today, beq_iff_eq, List.length_eq_zero, List.filter_eq_nil_iff]
    intro r hr hp
    simp only [Bool.and_eq_true, beq_iff_eq] at hp
    exact hclean r hr hp.1.1 hp.2
  have hcr : create_practice_record noFaults db u aid (some "") now1 =
      (.ok ⟨db.next_record_id, aid, now1, some ""⟩,
        recordInsert db u aid (some "") now1) :=
    create_record_ok_of_owned db u aid (some "") now1 ⟨action, hmem, haid, huser⟩
  have hfin1 : finish_action noFaults db u aid now1 =
      (.ok ⟨db.next_record_id, aid, now1, some ""⟩,
        recordInsert db u aid (some "") now1) := by
    rw [finish_action, hga1]
    dsimp only
    rw [haid, hcan1]
    simp only [Bool.not_true, Bool.false_eq_true, if_false]
    rw [hcr]
  have hrecmem : (⟨db.next_record_id, aid, now1, some ""⟩ : PracticeRecord)
      ∈ (recordInsert db u aid (some "") now1).practice_record := by
    rw [recordInsert]
    exact List.mem_append_right _ (List.mem_singleton.mpr rfl)
  have hactmem : ({ action with last_finish_time := some now1 } : PracticeAction)
      ∈ (recordInsert db u aid (some "") now1).practice_action := by
    rw [recordInsert]
    refine List.mem_map.mpr ⟨action, hmem, ?_⟩
    simp [haid, huser]
  have hga2 : ∃ action1, get_practice_action
      (recordInsert db u aid (some "") now1) u aid = some action1 := by
    rw [← Option.isSome_iff_exists, get_practice_action, List.find?_isSome]
    exact ⟨{ action with last_finish_time := some now1 }, hactmem, by simp [haid, huser]⟩
  obtain ⟨action1, hga2⟩ := hga2
  have hpa1 := List.find?_some hga2
  simp only [Bool.and_eq_true, beq_iff_eq] at hpa1
  have hcan2 : can_finish_today (recordInsert db u aid (some "") now1) u aid now2
      = false := by
    rw [can_finish_today]
    have hmemf : (⟨db.next_record_id, aid, now1, some ""⟩ : PracticeRecord)
        ∈ (recordInsert db u aid (some "") now1).practice_record.filter (fun r =>
            r.action_id == aid
            && (recordInsert db u aid (some "") now1).practice_action.any
                (fun a => a.id == r.action_id && a.user_id == u)
            && dateOf r.finish_time == dateOf now2) := by
      refine List.mem_filter.mpr ⟨hrecmem, ?_⟩
      simp only [Bool.and_eq_true, beq_iff_eq, List.any_eq_true]
      exact ⟨⟨by simp, ⟨{ action with last_finish_time := some now1 }, hactmem,
        by simp [haid, huser]⟩⟩, hday⟩
    have hne := List.ne_nil_of_mem hmemf
    rw [beq_eq_false_iff_ne]
    intro hlen
    exact hne (List.length_eq_zero.mp hlen)
  have hfin2 : finish_action noFaults (recordInsert db u aid (some "") now1) u aid now2
      = (.error ⟨409, "Already completed today"⟩,
         recordInsert db u aid (some "") now1) := by
    rw [finish_action, hga2]
    dsimp only
    rw [hpa1.1, hcan2]
    simp
  have hcount : ((recordInsert db u aid (some "") now1).practice_record.filter (fun r =>
      r.action_id == aid && dateOf r.finish_time == dateOf now2)).length = 1 := by
    rw [recordInsert]
    dsimp only
    rw [List.filter_append]
    have hold : db.practice_record.filter (fun r =>
        r.action_id == aid && dateOf r.finish_time == dateOf now2) = [] := by
      rw [List.filter_eq_nil_iff]
      intro r hr hp
      simp only [Bool.and_eq_true, beq_iff_eq] at hp
      exact hclean r hr hp.1 (hday ▸ hp.2)
    rw [hold]
    simp [hday]
  rw [hfin1]
  exact ⟨rfl, by rw [hfin2], by rw [hfin2], hcount⟩

theorem C4_double_finish_witness :
    (get_practice_action dbOneAction 1 1).isSome = true ∧
    (finish_action noFaults dbOneAction 1 1 500).1
      = .ok ⟨1, 1, 500, some ""⟩ ∧
    (finish_action noFaults (finish_action noFaults dbOneAction 1 1 500).2 1 1 600).1
      = .error ⟨409, "Already completed today"⟩ ∧
    ((finish_action noFaults dbOneAction 1 1 500).2.practice_record.filter (fun r =>
      r.action_id == 1 && dateOf r.finish_time == dateOf 600)).length = 1 := by
  have h := C4_double_finish dbOneAction 1 1 500 600 (by decide) (by decide) (by decide)
  exact ⟨by decide, h.1, h.2.1, h.2.2.2⟩

end RustTodo

namespace RustTodo

/-- In a list of actions with pairwise distinct ids, two members with the
same id are the same row. -/
theorem eq_of_mem_pairwise_ne {l : List PracticeAction}
    (hl : l.Pairwise (fun a b => a.id ≠ b.id))
    {a b : PracticeAction} (ha : a ∈ l) (hb : b ∈ l) (hid : a.id = b.id) :
    a = b := by
  induction l with
  | nil => cases ha
  | cons x xs ih =>
    rw [List.pairwise_cons] at hl
    rcases List.mem_cons.mp ha with rfl | ha' <;>
      rcases List.mem_cons.mp hb with h | hb'
    · rw [h]
    · exact absurd hid (hl.1 b hb')
    · rw [h] at hid; exact absurd hid.symm (hl.1 a ha')
    · exact ih hl.2 ha' hb'

/-- The UPDATE of create_practice_record changes only last_finish_time,
never the id of a row. -/
theorem update_preserves_id (u aid now : Nat) (a : PracticeAction) :
    ((if a.id == aid && a.user_id == u then { a with last_finish_time := some now }
      else a) : PracticeAction).id = a.id := by
  split <;> rfl

theorem create_user_fields (db : Db) (un ph : String) (now : Nat) :
    (create_user db un ph now).2.practice_action = db.practice_action ∧
    (create_user db un ph now).2.practice_record = db.practice_record ∧
    (create_user db un ph now).2.next_action_id = db.next_action_id := by
  rw [create_user]
  split <;> exact ⟨rfl, rfl, rfl⟩

theorem inv_createAction (db : Db) (u : Nat) (name : String) (now : Nat)
    (hinv : lftInv db) : lftInv (create_practice_action db u name now).2 := by
  rw [create_practice_action]
  by_cases hc : db.users.any (fun x => x.id == u) = true
  · rw [if_pos hc]
    intro a ha t ht
    rcases List.mem_append.mp ha with hold | hnew
    · exact hinv a hold t ht
    · rw [List.mem_singleton] at hnew
      rw [hnew] at ht
      cases ht
  · rw [if_neg hc]
    exact hinv

theorem ids_createAction (db : Db) (u : Nat) (name : String) (now : Nat)
    (hids : actionIdsOk db) : actionIdsOk (create_practice_action db u name now).2 := by
  rw [create_practice_action]
  by_cases hc : db.users.any (fun x => x.id == u) = true
  · rw [if_pos hc]
    constructor
    · intro a ha
      rcases List.mem_append.mp ha with hold | hnew
      · exact Nat.lt_succ_of_lt (hids.1 a hold)
      · rw [List.mem_singleton] at hnew
        rw [hnew]
        exact Nat.lt_succ_self _
    · rw [List.pairwise_append]
      refine ⟨hids.2, List.pairwise_singleton _ _, ?_⟩
      intro a ha b hb
      rw [List.mem_singleton] at hb
      rw [hb]
      exact Nat.ne_of_lt (hids.1 a ha)
  · rw [if_neg hc]
    exact hids

/-- Under the fault-free backend, finish_action either leaves the database
unchanged (lookup failure or same-day conflict) or produces exactly the
recordInsert state for the found action. -/
theorem finish_action_cases (db : Db) (u aid now : Nat) :
    (finish_action noFaults db u aid now).2 = db ∨
    ∃ action, get_practice_action db u aid = some action ∧
      (finish_action noFaults db u aid now).2 =
        recordInsert db u action.id (some "") now := by
  rw [finish_action]
  cases hga : get_practice_action db u aid with
  | none => exact Or.inl rfl
  | some action =>
    dsimp only
    cases hcan : can_finish_today db u action.id now with
    | false =>
      left
      simp
    | true =>
      right
      refine ⟨action, rfl, ?_⟩
      have hfind := List.find?_some hga
      simp only [Bool.and_eq_true, beq_iff_eq] at hfind
      have hcr := create_record_ok_of_owned db u action.id (some "") now
        ⟨action, List.mem_of_find?_eq_some hga, rfl, hfind.2⟩
      rw [hcr]
      simp

theorem ids_recordInsert (db : Db) (u aid : Nat) (note : Option String) (now : Nat)
    (hids : actionIdsOk db) : actionIdsOk (recordInsert db u aid note now) := by
  constructor
  · intro a' ha'
    rw [recordInsert] at ha'
    dsimp only at ha'
    obtain ⟨a, ha, hfa⟩ := List.mem_map.mp ha'
    have hid : a'.id = a.id := by
      rw [← hfa]
      exact update_preserves_id u aid now a
    rw [hid]
    exact hids.1 a ha
  · rw [recordInsert]
    dsimp only
    rw [List.pairwise_map]
    refine hids.2.imp ?_
    intro a b hab
    rw [update_preserves_id u aid now a, update_preserves_id u aid now b]
    exact hab

theorem inv_recordInsert (db : Db) (u aid now : Nat) (action : PracticeAction)
    (hga : get_practice_action db u aid = some action)
    (hclock : ∀ r ∈ db.practice_record, r.finish_time ≤ now)
    (hinv : lftInv db) (hids : actionIdsOk db) :
    lftInv (recordInsert db u action.id (some "") now) := by
  have hfind := List.find?_some hga
  simp only [Bool.and_eq_true, beq_iff_eq] at hfind
  have hamem := List.mem_of_find?_eq_some hga
  intro a' ha' t ht
  rw [recordInsert] at ha'
  dsimp only at ha'
  obtain ⟨a, ha, hfa⟩ := List.mem_map.mp ha'
  by_cases hc : (a.id == action.id && a.user_id == u) = true
  · rw [if_pos hc] at hfa
    simp only [Bool.and_eq_true, beq_iff_eq] at hc
    rw [← hfa] at ht
    have htn : t = now := by
      simpa using ht.symm
    constructor
    · refine ⟨⟨db.next_record_id, action.id, now, some ""⟩, ?_, ?_, ?_⟩
      · rw [recordInsert]
        exact List.mem_append_right _ (List.mem_singleton.mpr rfl)
      · rw [← hfa]
        exact hc.1.symm
      · rw [htn]
    · intro r hr hrid
      rw [recordInsert] at hr
      dsimp only at hr
      rw [htn]
      rcases List.mem_append.mp hr with hrold | hrnew
      · exact hclock r hrold
      · rw [List.mem_singleton] at hrnew
        rw [hrnew]
  · rw [if_neg hc] at hfa
    rw [← hfa] at ht ⊢
    have hne : a.id ≠ action.id := by
      intro he
      have heq := eq_of_mem_pairwise_ne hids.2 ha hamem he
      rw [heq] at hc
      simp [hfind.2] at hc
    obtain ⟨⟨r0, hr0, hr01, hr02⟩, hbound⟩ := hinv a ha t ht
    constructor
    · refine ⟨r0, ?_, hr01, hr02⟩
      rw [recordInsert]
      exact List.mem_append_left _ hr0
    · intro r hr hrid
      rw [recordInsert] at hr
      dsimp only at hr
      rcases List.mem_append.mp hr with hrold | hrnew
      · exact hbound r hrold hrid
      · rw [List.mem_singleton] at hrnew
        rw [hrnew] at hrid
        exact absurd hrid.symm hne

theorem inv_reachable (db : Db) (h : Reachable db) : lftInv db ∧ actionIdsOk db := by
  induction h with
  | init =>
    constructor
    · intro a ha
      cases ha
    · unfold actionIdsOk
      exact ⟨fun a ha => (by cases ha), List.Pairwise.nil⟩
  | step db db' hprev hs ih =>
    cases hs with
    | register username ph now =>
      obtain ⟨h1, h2, h3⟩ := create_user_fields db username ph now
      unfold actionIdsOk
      refine ⟨?_, ?_, ?_⟩
      · intro a ha t ht
        rw [h1] at ha
        rw [h2]
        exact ih.1 a ha t ht
      · intro a ha
        rw [h1] at ha
        rw [h3]
        exact ih.2.1 a ha
      · rw [h1]
        exact ih.2.2
    | createAction u name now =>
      exact ⟨inv_createAction db u name now ih.1, ids_createAction db u name now ih.2⟩
    | finish u aid now hclock =>
      rcases finish_action_cases db u aid now with heq | ⟨action, hga, heq⟩
      · rw [heq]
        exact ih
      · rw [heq]
        exact ⟨inv_recordInsert db u aid now action hga hclock ih.1 ih.2,
               ids_recordInsert db u action.id (some "") now ih.2⟩

/-- Claim C6: in every database reachable from the empty database through
the public mutating operations (under a monotone clock), every action row
carrying a last_finish_time has it equal to the finish_time of the most
recent PracticeRecord of that action. -/
theorem C6_lft_invariant (db : Db) (h : Reachable db) : lftInv db :=
  (inv_reachable db h).1

theorem C6_lft_invariant_witness : lftInv (finish_action noFaults dbOneAction 1 1 500).2 :=
  C6_lft_invariant (finish_action noFaults dbOneAction 1 1 500).2
    (Reachable.step dbOneAction (finish_action noFaults dbOneAction 1 1 500).2
      (Reachable.step (create_user emptyDb "alice" "h" 0).2 dbOneAction
        (Reachable.step emptyDb (create_user emptyDb "alice" "h" 0).2
          Reachable.init (Step.register emptyDb "alice" "h" 0))
        (Step.createAction (create_user emptyDb "alice" "h" 0).2 1 "sit" 0))
      (Step.finish dbOneAction 1 1 500 (by decide)))

end RustTodo
